import Mathlib

/-!
# Verification of the hamirc KISS transport and IRC directory core

Shallow embedding of the `kiss` package (frame codec, stream tokenizer,
port multiplexer) and of the `irc` package's directory operations
(`changeNick`, `handleCommand` registration gate, `send`, `Load`), with
theorems settling the specification's claims about them.

Bytes are modelled as `Nat` (values 0..255 in practice); Go byte slices as
`List Nat`; Go maps as association lists with `alookup`/`ainsert`/`adelete`;
Go strings as Lean `String`, with ASCII-only models of
`strings.ToLower`/`ToUpper` (nicks and commands in this system are ASCII).
-/

/-! ## ASCII string helpers (models of Go `strings` functions) -/

/-- Model of `unicode.ToLower` restricted to ASCII: `A`..`Z` gain 32. -/
def asciiLower (c : Char) : Char :=
  if 65 ≤ c.toNat ∧ c.toNat ≤ 90 then Char.ofNat (c.toNat + 32) else c

/-- Model of `unicode.ToUpper` restricted to ASCII: `a`..`z` lose 32. -/
def asciiUpper (c : Char) : Char :=
  if 97 ≤ c.toNat ∧ c.toNat ≤ 122 then Char.ofNat (c.toNat - 32) else c

/-- Model of `strings.ToLower` on ASCII strings. -/
def lowerStr (s : String) : String := ⟨s.data.map asciiLower⟩

/-- Model of `strings.ToUpper` on ASCII strings. -/
def upperStr (s : String) : String := ⟨s.data.map asciiUpper⟩

/-- Split a character list on a separator character; models
`strings.Split(line, " ")` at the character level (Go's split on a
one-byte separator). `[]` input yields `[[]]`, as Go returns `[""]`. -/
def splitChars (sep : Char) : List Char → List (List Char)
  | [] => [[]]
  | c :: cs =>
    if c = sep then [] :: splitChars sep cs
    else
      match splitChars sep cs with
      | [] => [[c]]
      | h :: t => (c :: h) :: t

/-- Model of `strings.Split(line, " ")`. -/
def goSplit (line : String) : List String :=
  (splitChars ' ' line.data).map (fun l => ⟨l⟩)

/-- Model of `strings.Join(parts, " ")` restricted to the single-space
separator used by `strings.SplitN(line, " ", n)`'s remainder field. -/
def goJoinSpace : List String → String
  | [] => ""
  | [s] => s
  | s :: rest => ⟨s.data ++ ' ' :: (goJoinSpace rest).data⟩

/-- Model of `strings.SplitN(line, " ", n)` for `n ≥ 1`: at most `n`
fields, the last being the unsplit remainder. -/
def goSplitN (line : String) (n : Nat) : List String :=
  let parts := goSplit line
  if parts.length ≤ n then parts
  else parts.take (n - 1) ++ [goJoinSpace (parts.drop (n - 1))]

/-- True if the string begins with the character `c`; models
`strings.HasPrefix(s, ":")`-style one-character tests. -/
def headIs (c : Char) (s : String) : Bool :=
  match s.data with
  | [] => false
  | d :: _ => d = c

/-- Model of `strings.CutPrefix(s, ":")` (the used result only): removes a
leading colon when present. -/
def cutColon (s : String) : String :=
  match s.data with
  | ':' :: rest => ⟨rest⟩
  | _ => s

/-! ## Association lists: the model of Go maps -/

/-- Lookup in an association-list map; models `m[k]` (`comma-ok` form). -/
def alookup {κ α : Type} [DecidableEq κ] : List (κ × α) → κ → Option α
  | [], _ => none
  | (k, v) :: m, q => if q = k then some v else alookup m q

/-- Deletion from an association-list map; models `delete(m, k)`. -/
def adelete {κ α : Type} [DecidableEq κ] (m : List (κ × α)) (k : κ) : List (κ × α) :=
  m.filter (fun p => decide (p.1 ≠ k))

/-- Insertion into an association-list map; models `m[k] = v`. -/
def ainsert {κ α : Type} [DecidableEq κ] (m : List (κ × α)) (k : κ) (v : α) : List (κ × α) :=
  adelete m k ++ [(k, v)]

/-! ## kiss package: constants and frame codec -/

/-- Frame delimiter byte `FEND`. -/
def FEND : Nat := 0xC0

/-- Escape byte `FESC`. -/
def FESC : Nat := 0xDB

/-- Transposed frame delimiter `TFEND`. -/
def TFEND : Nat := 0xDC

/-- Transposed escape `TFESC`. -/
def TFESC : Nat := 0xDD

/-- `QueueDepth`: frames buffered per TNC port before the oldest is dropped. -/
def QueueDepth : Nat := 512

/-- Byte-stuffing of a single payload byte: the `switch` body of the encoder
loop in `FrameEncode` (delimiter ↦ escape+transposed-delimiter, escape ↦
escape+transposed-escape, else pass through). -/
def escapeByte (b : Nat) : List Nat :=
  if b = FEND then [FESC, TFEND]
  else if b = FESC then [FESC, TFESC]
  else [b]

/-- Byte-stuffing of a payload: the encoder loop over `data`. -/
def stuffBytes : List Nat → List Nat
  | [] => []
  | b :: bs => escapeByte b ++ stuffBytes bs

/-- Model of `kiss.FrameEncode(portCmd, data)`.

Note the initial `List.replicate (data.length + 3) 0`: the Go source
constructs the output with `bytes.NewBuffer(make([]byte, len(data)+3))`,
and `bytes.NewBuffer` takes its argument as the buffer's initial
*contents*, so the emitted frame begins with `len(data)+3` zero bytes
before the leading delimiter. After those: delimiter, port/command byte,
the stuffed payload, zero padding up to 14 payload bytes (guarded by
`len(data) <= 14`), and the trailing delimiter. -/
def FrameEncode (portCmd : Nat) (data : List Nat) : List Nat :=
  List.replicate (data.length + 3) 0
    ++ [FEND, portCmd]
    ++ stuffBytes data
    ++ (if data.length ≤ 14 then List.replicate (14 - data.length) 0 else [])
    ++ [FEND]

/-! ## kiss package: the Split tokenizer -/

/-- Model of `bytes.IndexByte`. -/
def indexByte : List Nat → Nat → Option Nat
  | [], _ => none
  | x :: xs, b => if x = b then some 0 else (indexByte xs b).map (· + 1)

/-- Result of the escape-processing loop inside `Split`. -/
inductive UnescRes where
  | ok (frame : List Nat)
  | incomplete
  | invalid
deriving DecidableEq

/-- The escape-processing loop of `Split` over the raw frame interior:
`FESC TFEND` ↦ delimiter, `FESC TFESC` ↦ escape, a trailing lone `FESC` is
`incomplete`, `FESC` followed by anything else is `invalid`, other bytes
pass through. -/
def unescape : List Nat → UnescRes
  | [] => .ok []
  | b :: rest =>
    if b = FESC then
      match rest with
      | [] => .incomplete
      | t :: rest2 =>
        if t = TFEND then
          match unescape rest2 with
          | .ok f => .ok (FEND :: f)
          | r => r
        else if t = TFESC then
          match unescape rest2 with
          | .ok f => .ok (FESC :: f)
          | r => r
        else .invalid
    else
      match unescape rest with
      | .ok f => .ok (b :: f)
      | r => r

/-- The three results of a `bufio.SplitFunc`: bytes consumed, the token
(`none` models a nil token — Go distinguishes nil from an empty non-nil
token, and `Split` can emit the latter), and the error. -/
structure SplitRes where
  advance : Nat
  token : Option (List Nat)
  err : Option String
deriving DecidableEq

/-- Model of `kiss.Split(data, atEOF)`, the KISS `bufio.SplitFunc`:
find the first delimiter, then the next one, unescape the interior, and
report the consumed bytes / token / error exactly as the source does. -/
def Split (data : List Nat) (atEOF : Bool) : SplitRes :=
  if atEOF ∧ data.length = 0 then ⟨0, none, none⟩
  else
    match indexByte data FEND with
    | none =>
      if atEOF then ⟨data.length, none, none⟩ else ⟨0, none, none⟩
    | some start =>
      match indexByte (data.drop (start + 1)) FEND with
      | none =>
        if atEOF then ⟨data.length, none, some "incomplete KISS frame"⟩
        else ⟨0, none, none⟩
      | some e0 =>
        let rawFrame := (data.drop (start + 1)).take e0
        match unescape rawFrame with
        | .ok frame => ⟨start + 1 + e0 + 1, some frame, none⟩
        | .incomplete =>
          if atEOF then ⟨data.length, none, some "incomplete escape sequence"⟩
          else ⟨0, none, none⟩
        | .invalid => ⟨data.length, none, some "invalid escape sequence"⟩

/-- One pass of the `bufio.Scanner` loop driving `Split` once the whole
stream is buffered and EOF has been seen (`atEOF = true`; with the entire
stream present, the not-at-EOF branches of `Split` only ever ask for more
data, so this is the stream's final token sequence). A split error is
terminal for `bufio.Scanner`: `Scan` returns false and no further tokens
are produced. `fuel` bounds the recursion; `scanAll` supplies enough. -/
def scanGo : Nat → List Nat → List (List Nat) × Option String
  | 0, _ => ([], none)
  | fuel + 1, data =>
    let r := Split data true
    match r.err with
    | some e => ([], some e)
    | none =>
      match r.token with
      | some tok =>
        let rest := scanGo fuel (data.drop r.advance)
        (tok :: rest.1, rest.2)
      | none => ([], none)

/-- All tokens (and the terminal error, if any) that the scanner produces
from a complete byte stream. -/
def scanAll (data : List Nat) : List (List Nat) × Option String :=
  scanGo (data.length + 1) data

/-! ## kiss package: router and port multiplexer -/

/-- The per-token body of `(*TNC).router`: reads `frame[0]` to extract the
port (`frame[0] >> 4`) and passes `frame[1:]` on. `none` models the
index-out-of-range fault the Go code hits when the token is empty. -/
def routerStep (frame : List Nat) : Option (Nat × List Nat) :=
  match frame with
  | [] => none
  | b :: rest => some (b / 16, rest)

/-- Model of `(*TNC).enqueue` on one port's queue (oldest frame first):
when `free() == 0` (the queue holds `QueueDepth` frames) the oldest is
received away, then the new frame is sent. -/
def enqueue (q : List (List Nat)) (data : List Nat) : List (List Nat) :=
  if QueueDepth - q.length = 0 then q.drop 1 ++ [data] else q ++ [data]

/-- The port/command byte a port writes: `p.id << 4` on a `uint8`. -/
def portCmdByte (id : Nat) : Nat := (id % 256) * 16 % 256

/-- Model of `(*port).Write(data)`: encode with the port's id and hand the
bytes to the shared transport, whose outcome is abstracted as
`wr : List Nat → Option String` (the error component of `p.rw.Write`; the
count it returns is discarded by the source). On a transport error the
reported count is `len(data)`; on success it is the zero value `0`. -/
def portWrite (wr : List Nat → Option String) (id : Nat) (data : List Nat) :
    Nat × Option String :=
  match wr (FrameEncode (portCmdByte id) data) with
  | some e => (data.length, some e)
  | none => (0, none)

/-! ## irc package: users, server state -/

/-- The fields of `irc.User` the directory operations read or write
(nick, callsign, real name, and the `local` flag distinguishing TCP users
from radio-origin ones). -/
structure GoUser where
  nick : String
  callsign : String
  realName : String
  isLocal : Bool
deriving DecidableEq

/-- Server state for the directory operations. Go holds `*User` pointers
in both `Server.Users` and each channel's member map; the model gives each
user object a numeric identity in `heap`, and the maps store identities,
so that a mutation of a user's field is visible through every map. -/
structure Srv where
  heap : List (Nat × GoUser)
  users : List (String × Nat)
  channels : List (String × List (String × Nat))
deriving DecidableEq

/-- Dereference a user identity (a `*User` pointer). -/
def heapGet (s : Srv) (uid : Nat) : GoUser :=
  (alookup s.heap uid).getD ⟨"", "", "", false⟩

/-! ## irc package: changeNick -/

/-- Model of `(*Server).changeNick(user, newNick)`. Returns the new state
and whether the change was rejected with `ERR_NICKNAMEINUSE` (in which
case the state is unchanged). Mirrors the source: the claim is refused
when `s.Users[strings.ToLower(newNick)]` exists and is local; otherwise
the user's `Nick` field is rewritten and, in every channel whose member
map contains the old lowercased nick, the member is stored under the new
lowercased key and the old key deleted. The `s.Users` directory map
itself is left untouched by the source. -/
def changeNick (s : Srv) (uid : Nat) (newNick : String) : Srv × Bool :=
  let u := heapGet s uid
  let newL := lowerStr newNick
  let oldL := lowerStr u.nick
  let inUse :=
    match alookup s.users newL with
    | some eid => (heapGet s eid).isLocal
    | none => false
  if inUse then (s, true)
  else
    ({ heap := ainsert s.heap uid { u with nick := newNick }
       users := s.users
       channels := s.channels.map (fun nc =>
         (nc.1,
          if (alookup nc.2 oldL).isSome then adelete (ainsert nc.2 newL uid) oldL
          else nc.2)) },
     false)

/-! ## irc package: the command parser and registration gate -/

/-- Model of `irc.parse(line)`: split on single spaces; a leading `:` on
the first field is cut; at the first later field with a leading `:`, the
line is re-split with `strings.SplitN` so that field swallows the rest of
the line, and its `:` is cut (note the re-split works from the original
line, restoring any colon cut from field 0). -/
def parse (line : String) : List String :=
  let args := goSplit line
  let args0 :=
    if headIs ':' (args.headD "") then cutColon (args.headD "") :: args.drop 1
    else args
  match (args.drop 1).findIdx? (fun s => headIs ':' s) with
  | none => args0
  | some j =>
    let nargs := goSplitN line (j + 2)
    match nargs.reverse with
    | [] => []
    | last :: front => (cutColon last :: front).reverse

/-- The command names registered in `cmdSet`. -/
def cmdSetKeys : List String :=
  ["CAP", "JOIN", "LIST", "MODE", "MOTD", "NICK", "NOTICE", "PART", "PING",
   "PONG", "PRIVMSG", "TOPIC", "USER", "USERHOST", "QUIT", "WHO", "WHOIS"]

/-- What `(*Server).handleCommand` does with a line, as far as the
registration gate is concerned. -/
inductive CmdOutcome where
  | rejected451
  | dispatched (cmd : String)
  | unknownCmd (cmd : String)
deriving DecidableEq

/-- Model of the dispatch logic of `(*Server).handleCommand(user, line)`:
parse the line, upper-case the first argument, and — only when the user's
nick is still empty — reject anything but `NICK`, `USER`, `CAP` with
`ERR_NOTREGISTERED` (451) before dispatching to `cmdSet`. -/
def handleCommand (u : GoUser) (line : String) : CmdOutcome :=
  let args := parse line
  let command := upperStr (args.headD "")
  if u.nick = "" ∧ command ∉ ["NICK", "USER", "CAP"] then .rejected451
  else if command ∈ cmdSetKeys then .dispatched command
  else .unknownCmd command

/-! ## irc package: send -/

/-- The externally visible effect of one `(*Server).send` call: whether a
radio transmission happened and which users got the message written to
them. -/
structure SendEffect where
  radioTx : Bool
  recipients : List Nat
deriving DecidableEq

/-- Model of `(*Server).send(sender, cmd, target, msg)`: a local sender's
line is first transmitted over the radio; a `#`-target is broadcast to the
channel's members, skipping any member whose nick equals the sender's
unless the command is `PART`; any other target is looked up in `s.Users`
with the raw target string (the source does not lower-case it here) and
the message is delivered to that user or silently dropped. -/
def send (s : Srv) (senderUid : Nat) (cmd target : String) : SendEffect :=
  let sender := heapGet s senderUid
  let radio := sender.isLocal
  if headIs '#' target then
    match alookup s.channels target with
    | none => ⟨radio, []⟩
    | some m =>
      ⟨radio,
       (m.map Prod.snd).filter
         (fun uid => !((heapGet s uid).nick == sender.nick && !(cmd == "PART")))⟩
  else
    match alookup s.users target with
    | none => ⟨radio, []⟩
    | some uid => ⟨radio, [uid]⟩

/-! ## irc package: state persistence (Load) -/

/-- The persisted form of the server state: the user directory as saved
(map key → user record) and, per channel, the member nick list that
`ChanUserMap.MarshalJSON` writes. -/
structure SaveFile where
  users : List (String × GoUser)
  channels : List (String × List String)
deriving DecidableEq

/-- The in-memory state `Load` produces: directory plus per-channel member
maps holding user records. -/
structure LoadedState where
  users : List (String × GoUser)
  channels : List (String × List (String × GoUser))
deriving DecidableEq

/-- Model of `ChanUserMap.UnmarshalJSON`: each saved nick becomes a fresh
`NewUser(nick, io.Discard)` stub stored under the lowercased nick. -/
def unmarshalChan (nicks : List String) : List (String × GoUser) :=
  nicks.foldl (fun m nick => ainsert m (lowerStr nick) ⟨nick, "", "", false⟩) []

/-- Model of `(*Server).Nick(nick)` *including* its mutex acquisition:
the method does `s.Lock(); defer s.Unlock()` before the directory lookup
under the lowercased nick. `locked` says whether the caller already holds
`s.Mutex`; a `sync.Mutex` is not re-entrant, so with the mutex held the
`s.Lock()` call blocks forever — `none` models that non-return. -/
def sNick (locked : Bool) (users : List (String × GoUser)) (nick : String) :
    Option (Option GoUser) :=
  if locked then none
  else some (alookup users (lowerStr nick))

/-- One iteration of the repair loop inside `Load` for one visited key,
threaded through `Option`, where `none` means the loop is blocked forever.
`Load` holds `s.Mutex` for its whole body, so the `s.Nick` call is made
with the mutex held. When `s.Nick` would return, a non-resolving key is
deleted and a resolving one stores the directory's user under its
lowercased nick. -/
def repairStep (users : List (String × GoUser))
    (acc : Option (List (String × GoUser))) (k : String) :
    Option (List (String × GoUser)) :=
  match acc with
  | none => none
  | some cur =>
    match sNick true users k with
    | none => none
    | some none => some (adelete cur k)
    | some (some u) => some (ainsert cur (lowerStr u.nick) u)

/-- The repair loop `Load` runs over one channel's member map: the fold of
`repairStep` over the keys present when the loop starts (`none` = the loop
never finishes; an empty member map makes no `s.Nick` call and finishes
immediately). -/
def repairChannel (users : List (String × GoUser))
    (m : List (String × GoUser)) : Option (List (String × GoUser)) :=
  (m.map Prod.fst).foldl (repairStep users) (some m)

/-- The repair pass over every decoded channel, in order, threaded through
`Option`: a blocked repair of one channel blocks `Load` for good. -/
def repairChannels (users : List (String × GoUser)) :
    List (String × List (String × GoUser)) →
      Option (List (String × List (String × GoUser)))
  | [] => some []
  | nc :: rest =>
    match repairChannel users nc.2 with
    | none => none
    | some m2 =>
      match repairChannels users rest with
      | none => none
      | some rest2 => some ((nc.1, m2) :: rest2)

/-- Model of `(*Server).Load`: take `s.Mutex` (the caller holds nothing,
so this succeeds and the mutex stays held for the whole body), refuse when
the live directory is nonempty (`len(s.Users) > 0`), otherwise decode the
file and run the repair pass over every channel — whose `s.Nick` calls
are made with the mutex still held. `none` models `Load` never returning.
File-system and JSON-syntax errors are outside the model; `currentUsers`
is the live directory at call time. -/
def Load (currentUsers : List (String × Nat)) (file : SaveFile) :
    Option (Except String LoadedState) :=
  if 0 < currentUsers.length then
    some (Except.error "cannot load server state with connected users")
  else
    match repairChannels file.users
        (file.channels.map (fun nc => (nc.1, unmarshalChan nc.2))) with
    | none => none
    | some chs => some (Except.ok { users := file.users, channels := chs })

/-! ## Supporting lemmas: enqueue -/

/-- While the queue still has room for the whole batch, enqueuing appends. -/
theorem foldl_enqueue_append (fs : List (List Nat)) :
    ∀ q : List (List Nat), q.length + fs.length ≤ QueueDepth →
      List.foldl enqueue q fs = q ++ fs := by
  induction fs with
  | nil => intro q _; simp
  | cons f fs ih =>
    intro q hlen
    simp only [List.length_cons, QueueDepth] at hlen
    have hq : QueueDepth - q.length ≠ 0 := by
      simp only [QueueDepth]
      omega
    have hstep : enqueue q f = q ++ [f] := by
      simp [enqueue, hq]
    have hrec := ih (q ++ [f]) (by
      have h1 : (q ++ [f]).length = q.length + 1 := by simp
      simp only [QueueDepth]
      omega)
    simp [List.foldl_cons, hstep, hrec, List.append_assoc]

/-! ## Theorems for the claims -/

/-- Claim C5: enqueuing `QueueDepth + 1` frames onto an empty port queue
leaves exactly the most recent `QueueDepth` frames in arrival order; the
single oldest frame is the one evicted. -/
theorem enqueue_drop_oldest (frames : List (List Nat))
    (hlen : frames.length = QueueDepth + 1) :
    List.foldl enqueue [] frames = frames.drop 1 := by
  have hsplit : frames = frames.take QueueDepth ++ frames.drop QueueDepth :=
    (List.take_append_drop QueueDepth frames).symm
  have htklen : (frames.take QueueDepth).length = QueueDepth := by
    simp [List.length_take, hlen]
  have hdrlen : (frames.drop QueueDepth).length = 1 := by
    simp [List.length_drop, hlen]
  obtain ⟨x, hx⟩ := List.length_eq_one.mp hdrlen
  calc List.foldl enqueue [] frames
      = List.foldl enqueue []
          (frames.take QueueDepth ++ frames.drop QueueDepth) := by rw [← hsplit]
    _ = List.foldl enqueue
          (List.foldl enqueue [] (frames.take QueueDepth))
          (frames.drop QueueDepth) := by rw [List.foldl_append]
    _ = List.foldl enqueue (frames.take QueueDepth) (frames.drop QueueDepth) := by
          rw [foldl_enqueue_append (frames.take QueueDepth) []
            (by simp [htklen])]
          simp
    _ = enqueue (frames.take QueueDepth) x := by rw [hx]; rfl
    _ = (frames.take QueueDepth).drop 1 ++ [x] := by
          simp [enqueue, htklen]
    _ = frames.drop 1 := by
          conv_rhs => rw [hsplit]
          rw [hx, List.drop_append_of_le_length
            (by rw [htklen]; norm_num [QueueDepth] : 1 ≤ (frames.take QueueDepth).length)]

/-- Witness for C5 at a concrete batch of 513 frames. -/
theorem enqueue_drop_oldest_witness :
    ((List.range (QueueDepth + 1)).map (fun n => [n])).length = QueueDepth + 1 ∧
      List.foldl enqueue [] ((List.range (QueueDepth + 1)).map (fun n => [n]))
        = ((List.range (QueueDepth + 1)).map (fun n => [n])).drop 1 :=
  ⟨by simp, enqueue_drop_oldest _ (by simp)⟩

/-- Claim C2 (code bug): encoding port 2, command 0, payload `[0xC0, 0x41]`
does *not* produce the bare frame the specification lists — the output
carries five leading zero bytes (`bytes.NewBuffer(make([]byte, len+3))`
makes the zero slice the buffer's initial contents) before the leading
delimiter, port/command byte `0x20`, escaped delimiter, `0x41`, twelve
zero padding bytes, and the trailing delimiter. -/
theorem frameEncode_leading_zeros :
    FrameEncode 0x20 [0xC0, 0x41]
        = [0, 0, 0, 0, 0,
           0xC0, 0x20, 0xDB, 0xDC, 0x41,
           0, 0, 0, 0, 0, 0, 0, 0, 0, 0, 0, 0,
           0xC0] ∧
      FrameEncode 0x20 [0xC0, 0x41]
        ≠ [0xC0, 0x20, 0xDB, 0xDC, 0x41,
           0, 0, 0, 0, 0, 0, 0, 0, 0, 0, 0, 0,
           0xC0] := by
  constructor <;> decide

/-- Claim C9 (code bug): two adjacent delimiter bytes make `Split` emit a
non-nil *empty* token (`bufio.Scanner` forwards such tokens), and the
router's read of the token's first byte is then out of range — `routerStep`
has no in-range result for the empty frame. -/
theorem split_empty_token :
    Split [FEND, FEND] true = ⟨2, some [], none⟩ ∧ routerStep [] = none := by
  constructor <;> decide

/-- Claim C10: a per-port write reports the full requested byte count
together with the error exactly when the underlying transport write fails,
and reports count `0` with no error when the transport write succeeds. -/
theorem portWrite_report (wr : List Nat → Option String) (id : Nat)
    (data : List Nat) (n : Nat) (e : String) :
    (portWrite wr id data = (n, some e) ↔
      wr (FrameEncode (portCmdByte id) data) = some e ∧ n = data.length) ∧
    (portWrite wr id data = (0, none) ↔
      wr (FrameEncode (portCmdByte id) data) = none) := by
  unfold portWrite
  cases h : wr (FrameEncode (portCmdByte id) data) with
  | none => simp
  | some e' =>
    simp only [Prod.mk.injEq, Option.some.injEq, h]
    constructor
    · constructor
      · rintro ⟨hn, he⟩; exact ⟨he, hn.symm⟩
      · rintro ⟨he, hn⟩; exact ⟨hn.symm, he⟩
    · simp

/-! ## Supporting lemmas: the codec round trip -/

theorem indexByte_cons (x : Nat) (xs : List Nat) (b : Nat) :
    indexByte (x :: xs) b = if x = b then some 0 else (indexByte xs b).map (· + 1) := rfl

theorem unescape_cons (b : Nat) (rest : List Nat) :
    unescape (b :: rest) =
      if b = FESC then
        match rest with
        | [] => .incomplete
        | t :: rest2 =>
          if t = TFEND then
            match unescape rest2 with
            | .ok f => .ok (FEND :: f)
            | r => r
          else if t = TFESC then
            match unescape rest2 with
            | .ok f => .ok (FESC :: f)
            | r => r
          else .invalid
      else
        match unescape rest with
        | .ok f => .ok (b :: f)
        | r => r := by
  cases rest <;> rfl

theorem indexByte_append_first (b : Nat) (pre post : List Nat) (h : b ∉ pre) :
    indexByte (pre ++ b :: post) b = some pre.length := by
  induction pre with
  | nil => simp [indexByte]
  | cons x xs ih =>
    simp only [List.mem_cons, not_or] at h
    rw [List.cons_append, indexByte_cons, if_neg (fun hh : x = b => h.1 hh.symm),
      ih h.2]
    rfl

theorem fend_not_mem_stuff (p : List Nat) : FEND ∉ stuffBytes p := by
  induction p with
  | nil => simp [stuffBytes]
  | cons b bs ih =>
    simp only [stuffBytes, List.mem_append, not_or]
    refine ⟨?_, ih⟩
    unfold escapeByte
    split
    · decide
    · split
      · decide
      · rename_i h1 h2
        simp only [List.mem_singleton]
        exact fun hh => h1 hh.symm

theorem unescape_zeros (k : Nat) :
    unescape (List.replicate k 0) = .ok (List.replicate k 0) := by
  induction k with
  | zero => rfl
  | succ m ih =>
    rw [List.replicate_succ, unescape_cons, if_neg (by decide : ¬ (0 : Nat) = FESC), ih]

theorem unescape_stuff_append (p zs zs' : List Nat)
    (h : unescape zs = .ok zs') :
    unescape (stuffBytes p ++ zs) = .ok (p ++ zs') := by
  induction p with
  | nil => simpa [stuffBytes]
  | cons b bs ih =>
    by_cases hb : b = FEND
    · subst hb
      show unescape (FESC :: TFEND :: (stuffBytes bs ++ zs)) = _
      rw [unescape_cons, if_pos rfl]
      show (if TFEND = TFEND then
              match unescape (stuffBytes bs ++ zs) with
              | .ok f => UnescRes.ok (FEND :: f)
              | r => r
            else if TFEND = TFESC then
              match unescape (stuffBytes bs ++ zs) with
              | .ok f => UnescRes.ok (FESC :: f)
              | r => r
            else .invalid) = _
      rw [if_pos rfl, ih]
      rfl
    · by_cases hb2 : b = FESC
      · subst hb2
        show unescape (FESC :: TFESC :: (stuffBytes bs ++ zs)) = _
        rw [unescape_cons, if_pos rfl]
        show (if TFESC = TFEND then
                match unescape (stuffBytes bs ++ zs) with
                | .ok f => UnescRes.ok (FEND :: f)
                | r => r
              else if TFESC = TFESC then
                match unescape (stuffBytes bs ++ zs) with
                | .ok f => UnescRes.ok (FESC :: f)
                | r => r
              else .invalid) = _
        rw [if_neg (by decide : ¬ TFESC = TFEND), if_pos rfl, ih]
        rfl
      · have hstep : stuffBytes (b :: bs) ++ zs = b :: (stuffBytes bs ++ zs) := by
          simp [stuffBytes, escapeByte, hb, hb2]
        rw [hstep, unescape_cons, if_neg hb2, ih]
        rfl

theorem pad_if_eq (n : Nat) :
    (if n ≤ 14 then List.replicate (14 - n) 0 else ([] : List Nat))
      = List.replicate (14 - n) 0 := by
  split
  · rfl
  · rename_i h; rw [Nat.sub_eq_zero_of_le (by omega)]; rfl

/-- Claim C1: for every payload `p` and every port/command byte (a byte
with port nibble 0-7, i.e. value under 0x80), tokenizing the encoder's
output emits exactly the token consisting of the port/command byte, `p`,
and the `14 - |p|` zero padding bytes, with no error — so stripping the
port/command byte and the padding recovers `p`. Holds in spite of the
encoder's leading zero bytes, because tokenizing skips to the first
delimiter. -/
theorem frame_roundtrip (portCmd : Nat) (p : List Nat) (h : portCmd < 128) :
    (Split (FrameEncode portCmd p) true).err = none ∧
    (Split (FrameEncode portCmd p) true).token
        = some (portCmd :: (p ++ List.replicate (14 - p.length) 0)) ∧
    ((Split (FrameEncode portCmd p) true).token.map
        (fun t => (t.drop 1).take p.length)) = some p := by
  have hpc_fend : portCmd ≠ FEND := by unfold FEND; omega
  have hpc_fesc : portCmd ≠ FESC := by unfold FESC; omega
  set n := p.length with hn
  set pad := List.replicate (14 - n) (0 : Nat) with hpad
  set interior := stuffBytes p ++ pad with hint
  have hdata : FrameEncode portCmd p
      = (List.replicate (n + 3) 0) ++ FEND :: ((portCmd :: interior) ++ [FEND]) := by
    unfold FrameEncode
    rw [← hn, pad_if_eq, ← hpad]
    simp [hint, List.append_assoc]
  have hFpre : FEND ∉ List.replicate (n + 3) (0 : Nat) := by
    simp [List.mem_replicate, FEND]
  have hFint : FEND ∉ (portCmd :: interior) := by
    simp only [hint, List.mem_cons, List.mem_append, not_or]
    refine ⟨fun hh => hpc_fend hh.symm, fend_not_mem_stuff p, ?_⟩
    simp [hpad, List.mem_replicate, FEND]
  have hidx1 : indexByte (FrameEncode portCmd p) FEND = some (n + 3) := by
    rw [hdata]
    have := indexByte_append_first FEND (List.replicate (n + 3) 0)
      ((portCmd :: interior) ++ [FEND]) hFpre
    simpa using this
  have hdrop : (FrameEncode portCmd p).drop (n + 3 + 1) = (portCmd :: interior) ++ [FEND] := by
    rw [hdata]
    rw [show (List.replicate (n + 3) (0 : Nat)) ++ FEND :: ((portCmd :: interior) ++ [FEND])
        = (List.replicate (n + 3) 0 ++ [FEND]) ++ ((portCmd :: interior) ++ [FEND]) by simp]
    exact List.drop_left' (by simp)
  have hidx2 : indexByte ((FrameEncode portCmd p).drop (n + 3 + 1)) FEND
      = some (interior.length + 1) := by
    rw [hdrop]
    have := indexByte_append_first FEND (portCmd :: interior) [] hFint
    simpa using this
  have htake : ((FrameEncode portCmd p).drop (n + 3 + 1)).take (interior.length + 1)
      = portCmd :: interior := by
    rw [hdrop]
    exact List.take_left' (by simp)
  have hz : unescape pad = .ok pad := by rw [hpad]; exact unescape_zeros _
  have hunesc : unescape (portCmd :: interior) = .ok (portCmd :: (p ++ pad)) := by
    rw [unescape_cons, if_neg hpc_fesc, hint, unescape_stuff_append p pad pad hz]
  have hlen0 : ¬ (FrameEncode portCmd p).length = 0 := by simp [hdata]
  have hsplit : Split (FrameEncode portCmd p) true
      = ⟨(n + 3) + 1 + (interior.length + 1) + 1, some (portCmd :: (p ++ pad)), none⟩ := by
    simp only [Split, hlen0, and_false, if_false, hidx1, hidx2, htake, hunesc,
      true_and, false_and, if_neg hlen0]
  refine ⟨by rw [hsplit], by rw [hsplit], ?_⟩
  rw [hsplit]
  show some (((portCmd :: (p ++ pad)).drop 1).take n) = some p
  rw [show ((portCmd :: (p ++ pad)).drop 1) = p ++ pad from rfl]
  rw [hn]
  rw [List.take_left]

/-- Witness for C1 at port/command byte `0x20` and a payload containing the
delimiter byte. -/
theorem frame_roundtrip_witness :
    (0x20 : Nat) < 128 ∧
    ((Split (FrameEncode 0x20 [0xC0, 0x41]) true).err = none ∧
     (Split (FrameEncode 0x20 [0xC0, 0x41]) true).token
        = some (0x20 :: (([0xC0, 0x41] : List Nat)
            ++ List.replicate (14 - ([0xC0, 0x41] : List Nat).length) 0)) ∧
     ((Split (FrameEncode 0x20 [0xC0, 0x41]) true).token.map
        (fun t => (t.drop 1).take ([0xC0, 0x41] : List Nat).length))
        = some [0xC0, 0x41]) :=
  ⟨by decide, frame_roundtrip 0x20 [0xC0, 0x41] (by decide)⟩

/-- Claim C4 counterexample: a stream holding an invalid-escape frame
followed by a perfectly well-formed frame yields *no* tokens at all — the
error consumes the whole buffer and stops the scan — although the trailing
frame alone tokenizes fine. -/
theorem split_error_halts_scan_cex :
    scanAll [0xC0, 0xDB, 0x41, 0xC0, 0xC0, 0x30, 0xC0]
        = ([], some "invalid escape sequence") ∧
    scanAll [0xC0, 0x30, 0xC0] = ([[0x30]], none) := by
  constructor <;> decide

/-- Claim C4 as amended: an invalid escape sequence makes `Split` consume
the *entire* buffered data — whatever well-formed frames follow it — and
return an error, which is terminal for the `bufio.Scanner` loop: no
further tokens are emitted from the stream. -/
theorem split_error_halts_scan (rest : List Nat) :
    Split ([0xC0, 0xDB, 0x41, 0xC0] ++ rest) true
        = ⟨rest.length + 4, none, some "invalid escape sequence"⟩ ∧
    scanAll ([0xC0, 0xDB, 0x41, 0xC0] ++ rest)
        = ([], some "invalid escape sequence") := by
  have h : ([0xC0, 0xDB, 0x41, 0xC0] ++ rest).length = rest.length + 4 := by
    simp
  refine ⟨?_, ?_⟩
  · show (⟨([0xC0, 0xDB, 0x41, 0xC0] ++ rest).length, none,
        some "invalid escape sequence"⟩ : SplitRes) = _
    rw [h]
  · rfl

/-- Claim C6 counterexample: a user whose nick is set but whose identity
(callsign, from `USER`) is still empty — hence not yet fully registered —
has a `JOIN` dispatched rather than rejected with 451. -/
theorem handleCommand_gate_cex :
    handleCommand ⟨"bob", "", "", true⟩ "JOIN #chat"
      = CmdOutcome.dispatched "JOIN" := by
  decide

/-- Claim C6 as amended: `handleCommand` rejects with 451 exactly when the
user's *nick* is unset and the parsed command is not `NICK`, `USER`, or
`CAP`; the identity field plays no part in the gate. -/
theorem handleCommand_gate (u : GoUser) (line : String) :
    handleCommand u line = CmdOutcome.rejected451 ↔
      (u.nick = "" ∧
        upperStr ((parse line).headD "") ∉ (["NICK", "USER", "CAP"] : List String)) := by
  simp only [handleCommand]
  by_cases hcond : u.nick = "" ∧
      upperStr ((parse line).headD "") ∉ (["NICK", "USER", "CAP"] : List String)
  · rw [if_pos hcond]
    exact iff_of_true rfl hcond
  · rw [if_neg hcond]
    constructor
    · intro hcon
      exfalso
      revert hcon
      split <;> simp
    · exact fun hcon => absurd hcon hcond

/-- The concrete server for the C3 counterexample: one local user `Bob`,
keyed `bob` in the directory and the `#c` member map. -/
def srvC3 : Srv :=
  ⟨[(0, ⟨"Bob", "K1", "Bob R", true⟩)], [("bob", 0)], [("#c", [("bob", 0)])]⟩

/-- Claim C3 (code bug): a successful nick change rewrites the channel
membership key but leaves the server's directory keyed under the *old*
lowercased nick (`s.Users` is never updated by `changeNick`), and a user
is refused a case-only change of their own nick (`Bob` → `BOB`) because
the user's own directory entry counts as "in use". -/
theorem changeNick_stale_directory :
    changeNick srvC3 0 "Alice"
        = (⟨[(0, ⟨"Alice", "K1", "Bob R", true⟩)], [("bob", 0)],
            [("#c", [("alice", 0)])]⟩, false) ∧
    alookup (changeNick srvC3 0 "Alice").1.users "alice" = none ∧
    alookup (changeNick srvC3 0 "Alice").1.users "bob" = some 0 ∧
    (changeNick srvC3 0 "BOB").2 = true := by
  refine ⟨?_, ?_, ?_, ?_⟩ <;> decide

/-- The concrete server for the C7 counterexample: a remote user `bob` and
a local sender `alice`, both keyed by lowercased nick. -/
def srvC7 : Srv :=
  ⟨[(0, ⟨"bob", "K0", "", false⟩), (1, ⟨"alice", "K1", "", true⟩)],
   [("bob", 0), ("alice", 1)], []⟩

/-- Claim C7 (code bug): `send` looks the target up in `s.Users` with the
raw string, so `PRIVMSG Bob` is silently dropped even though the user
`bob` exists under the case-insensitive rule (third conjunct), while the
exact lowercase target is delivered. -/
theorem send_case_sensitive_lookup :
    send srvC7 1 "PRIVMSG" "Bob" = ⟨true, []⟩ ∧
    send srvC7 1 "PRIVMSG" "bob" = ⟨true, [0]⟩ ∧
    alookup srvC7.users (lowerStr "Bob") = some 0 := by
  refine ⟨?_, ?_, ?_⟩ <;> decide

/-- The C8 failing input: a saved state whose one channel has one member
nick, with no connected users — the ordinary case `Load` exists for. -/
def fileC8 : SaveFile :=
  ⟨[("bob", ⟨"Bob", "KC", "", false⟩)], [("#c", ["Bob"])]⟩

/-- A state file whose channel member maps are all empty: the repair loop
body never runs, so no `s.Nick` call is made. -/
def fileC8e : SaveFile :=
  ⟨[("bob", ⟨"Bob", "KC", "", false⟩)], [("#c", [])]⟩

/-- Claim C8 (code bug): `Load` holds `s.Mutex` for its whole body and its
repair loop calls `s.Nick`, which re-acquires the same non-re-entrant
mutex, so loading any state file with a nonempty channel membership —
here `fileC8` — blocks forever on the first repair iteration and `Load`
never returns (first conjunct): the repair pass and the cross-reference
invariant the claim describes are never established. The guard still
works: with any user connected, `Load` fails before the first `s.Nick`
call (second conjunct), and `Load` completes only when every decoded
member map is empty, where the repair loop makes no `s.Nick` call (third
conjunct). -/
theorem load_deadlocks :
    Load [] fileC8 = none ∧
    Load [("z", 0)] fileC8
        = some (Except.error "cannot load server state with connected users") ∧
    Load [] fileC8e
        = some (Except.ok ⟨[("bob", ⟨"Bob", "KC", "", false⟩)], [("#c", [])]⟩) :=
  ⟨rfl, rfl, rfl⟩
